import Mathlib

/-!
Verification of the feature-transformation and model-selection contract of the
student-performance ML pipeline (modules `src/features/build_features.py`,
`src/features/calculate_features.py`, `src/models/train_model.py`, `api.py`).

Dataframes are embedded per record: a `Row` is an ordered association list from
column name to cell value, which is the per-row semantics of the columnwise
pandas operations used by the code (column assignment, drop, selection,
concatenation). Cell values are strings, rationals (for float cells), or a
missing marker (NaN).
-/

/-- A cell value of a dataframe: a raw category string, a numeric value
(floats are embedded as rationals), or NaN. -/
inductive Val where
  | str (s : String)
  | num (q : ℚ)
  | missing
deriving DecidableEq

/-- First-match lookup in an association list (semantics of a Python dict read
and of selecting a named column). -/
def lookupKey {κ α : Type} [DecidableEq κ] : List (κ × α) → κ → Option α
  | [], _ => none
  | p :: l, c => if p.1 = c then some p.2 else lookupKey l c

/-- One dataframe row: ordered list of (column name, value). -/
abbrev Row := List (String × Val)

/-- The value of column `c`, if present. -/
def Row.getOpt (r : Row) (c : String) : Option Val :=
  lookupKey r c

/-- `c in df.columns`. -/
def Row.hasCol (r : Row) (c : String) : Bool :=
  (Row.getOpt r c).isSome

/-- `df.drop(columns=[c])`: removes every column named `c`. -/
def Row.dropCol : Row → String → Row
  | [], _ => []
  | p :: r, c => if p.1 = c then Row.dropCol r c else p :: Row.dropCol r c

/-- Replace the value of every column named `c`, keeping positions. -/
def Row.replaceCol : Row → String → Val → Row
  | [], _, _ => []
  | p :: r, c, v => if p.1 = c then (c, v) :: Row.replaceCol r c v else p :: Row.replaceCol r c v

/-- `df[c] = v`: overwrite the column in place if present, else append it. -/
def Row.setCol (r : Row) (c : String) (v : Val) : Row :=
  if Row.hasCol r c then Row.replaceCol r c v else r ++ [(c, v)]

/-- `df[cs]`: column selection in the order given by `cs`. -/
def Row.select (r : Row) (cs : List String) : Row :=
  cs.map (fun c => (c, (Row.getOpt r c).getD Val.missing))

-- Basic lemmas about the row operations.

theorem getOpt_dropCol (r : Row) (c d : String) :
    Row.getOpt (Row.dropCol r d) c = if c = d then none else Row.getOpt r c := by
  induction r with
  | nil => simp [Row.dropCol, Row.getOpt, lookupKey]
  | cons p r ih =>
    by_cases hpd : p.1 = d
    · by_cases hcd : c = d
      · rw [if_pos hcd] at ih ⊢
        simpa [Row.dropCol, hpd] using ih
      · have hpc : ¬ p.1 = c := fun h => hcd ((h.symm.trans hpd))
        rw [if_neg hcd] at ih ⊢
        simp only [Row.dropCol, hpd, if_pos]
        rw [ih]
        simp [Row.getOpt, lookupKey, hpc]
    · by_cases hpc : p.1 = c
      · have hcd : ¬ c = d := fun h => hpd (hpc.trans h)
        rw [if_neg hcd]
        simp [Row.dropCol, Row.getOpt, lookupKey, hpd, hpc, hcd]
      · by_cases hcd : c = d
        · rw [if_pos hcd] at ih ⊢
          simp only [Row.getOpt] at ih ⊢
          simp only [Row.dropCol, hpd, if_neg, if_false]
          show lookupKey (p :: Row.dropCol r d) c = none
          simp only [lookupKey, hpc, if_neg, if_false]
          exact ih
        · rw [if_neg hcd] at ih ⊢
          simp only [Row.getOpt] at ih ⊢
          simp only [Row.dropCol, hpd, if_neg, if_false]
          show lookupKey (p :: Row.dropCol r d) c = lookupKey (p :: r) c
          simp only [lookupKey, hpc, if_neg, if_false]
          exact ih

theorem getOpt_replaceCol (r : Row) (c d : String) (v : Val) :
    Row.getOpt (Row.replaceCol r d v) c =
      if c = d then (if Row.hasCol r d then some v else none) else Row.getOpt r c := by
  induction r with
  | nil => simp [Row.replaceCol, Row.getOpt, Row.hasCol, lookupKey]
  | cons p r ih =>
    by_cases hpd : p.1 = d
    · by_cases hcd : c = d
      · simp [Row.replaceCol, Row.getOpt, Row.hasCol, lookupKey, hpd, hcd]
      · have hdc : ¬ d = c := fun h => hcd h.symm
        simp [Row.replaceCol, Row.getOpt, Row.hasCol, lookupKey, hpd, hcd, hdc] at ih ⊢
        simpa [Row.getOpt, lookupKey] using ih
    · by_cases hpc : p.1 = c
      · by_cases hcd : c = d
        · exact absurd (hpc.trans hcd) hpd
        · simp [Row.replaceCol, Row.getOpt, lookupKey, hpd, hpc, hcd]
      · simp only [Row.replaceCol, hpd, if_neg]
        simp only [Row.getOpt, Row.hasCol, lookupKey, hpc, if_neg, hpd] at ih ⊢
        simpa [Row.getOpt, Row.hasCol, lookupKey, hpd] using ih

theorem getOpt_append (r s : Row) (c : String) :
    Row.getOpt (r ++ s) c =
      match Row.getOpt r c with
      | some v => some v
      | none => Row.getOpt s c := by
  induction r with
  | nil => simp [Row.getOpt, lookupKey]
  | cons p r ih =>
    by_cases hpc : p.1 = c
    · simp [Row.getOpt, lookupKey, hpc]
    · simpa [Row.getOpt, lookupKey, hpc] using ih

theorem getOpt_setCol_self (r : Row) (c : String) (v : Val) :
    Row.getOpt (Row.setCol r c v) c = some v := by
  unfold Row.setCol
  by_cases h : Row.hasCol r c
  · simp [h, getOpt_replaceCol]
  · simp only [h, if_neg, Bool.not_eq_true, if_false]
    rw [getOpt_append]
    have hnone : Row.getOpt r c = none := by
      unfold Row.hasCol at h
      cases hh : Row.getOpt r c with
      | none => rfl
      | some v => rw [hh] at h; simp at h
    rw [hnone]
    simp [Row.getOpt, lookupKey]

theorem getOpt_setCol_ne (r : Row) (c d : String) (v : Val) (h : c ≠ d) :
    Row.getOpt (Row.setCol r d v) c = Row.getOpt r c := by
  unfold Row.setCol
  by_cases hd : Row.hasCol r d
  · simp [hd, getOpt_replaceCol, h]
  · simp only [hd, if_neg, Bool.not_eq_true, if_false]
    rw [getOpt_append]
    cases hh : Row.getOpt r c with
    | some w => simp
    | none =>
      have hdc : ¬ d = c := fun hh2 => h hh2.symm
      simp [Row.getOpt, lookupKey, hdc]

-- ===================================================================
-- The persisted artifacts: one-hot encoder and PCA model
-- ===================================================================

/-- Semantics of `pandas.Series.map(dict)` on one cell: a string key found in
the dict becomes its numeric value; anything else (unknown key, non-string,
NaN) becomes NaN. -/
def seriesMapVal (m : List (String × ℚ)) : Val → Val
  | Val.str s =>
    match lookupKey m s with
    | some q => Val.num q
    | none => Val.missing
  | _ => Val.missing

/-- Model of the fitted `sklearn.preprocessing.OneHotEncoder(sparse_output=False,
drop="first")` persisted by `FeatureBuilder.onehot_encode`
(`src/features/build_features.py` line 274). `categories_` holds, per fitted
input column, the category levels learned at fit time; `handle_unknown` is the
sklearn default `"error"`. -/
structure OneHotEncoderModel where
  feature_names_in_ : Option (List String)
  categories_ : List (List String)
deriving DecidableEq

/-- `encoder.get_feature_names_out(names)` under the drop-first policy: for each
column, one output name per category level except the first. -/
def OneHotEncoderModel.get_feature_names_out
    (enc : OneHotEncoderModel) (names : List String) : List String :=
  ((names.zip enc.categories_).map
    (fun p => (p.2.drop 1).map (fun cat => p.1 ++ "_" ++ cat))).join

/-- One-hot encoding of one cell against the fitted levels of its column, with
drop-first: a value equal to the first level yields all zeros; a value outside
the fitted levels is an error (sklearn `handle_unknown="error"` default). -/
def oneHotColumn (cats : List String) (v : Val) : Except String (List ℚ) :=
  match v with
  | Val.str s =>
    if s ∈ cats then
      Except.ok ((cats.drop 1).map (fun cat => if cat = s then (1 : ℚ) else 0))
    else Except.error ("Found unknown category " ++ s)
  | Val.num _ => Except.error "Found unknown category (non-string value)"
  | Val.missing => Except.error "Found unknown category (missing value)"

/-- Encode a list of cells columnwise, stopping at the first failing column. -/
def exceptMapM {α β : Type} (f : α → Except String β) : List α → Except String (List β)
  | [] => Except.ok []
  | a :: l =>
    match f a with
    | Except.error e => Except.error e
    | Except.ok b =>
      match exceptMapM f l with
      | Except.error e => Except.error e
      | Except.ok bs => Except.ok (b :: bs)

/-- `encoder.transform` on one row of nominal values (values aligned with
`categories_`): concatenation of the per-column indicator blocks, or an error
if any value is outside the fitted vocabulary. -/
def OneHotEncoderModel.transform
    (enc : OneHotEncoderModel) (vals : List Val) : Except String (List ℚ) :=
  match exceptMapM (fun p => oneHotColumn p.1 p.2) (enc.categories_.zip vals) with
  | Except.error e => Except.error e
  | Except.ok parts => Except.ok parts.join

/-- Lexicographic comparison of char lists by code point. -/
def charListLe : List Char → List Char → Bool
  | [], _ => true
  | _ :: _, [] => false
  | a :: as, b :: bs =>
    if a.toNat < b.toNat then true
    else if b.toNat < a.toNat then false
    else charListLe as bs

/-- Lexicographic order on strings by code point. -/
def stringLe (a b : String) : Bool := charListLe a.data b.data

/-- Insert into a lexicographically sorted list of strings. -/
def insertSortedString (a : String) : List String → List String
  | [] => [a]
  | b :: l => if stringLe a b then a :: b :: l else b :: insertSortedString a l

/-- Sorted list of strings (model of the ascending order `numpy.unique` gives
to the learned category levels). -/
def sortStrings (l : List String) : List String :=
  l.foldr insertSortedString []

/-- Distinct values in first-seen order. -/
def dedupeStrings (l : List String) : List String :=
  l.foldl (fun acc v => if v ∈ acc then acc else acc ++ [v]) []

/-- Model of `OneHotEncoder(sparse_output=False, drop="first").fit(df[features])`
as performed by `FeatureBuilder.onehot_encode`: per column, the sorted distinct
string values observed in the training rows become the fitted levels. -/
def fitOneHotEncoder (rows : List Row) (features : List String) : OneHotEncoderModel :=
  { feature_names_in_ := some features
    categories_ := features.map (fun c =>
      sortStrings (dedupeStrings (rows.filterMap (fun r =>
        match Row.getOpt r c with
        | some (Val.str s) => some s
        | _ => none)))) }

/-- Model of the persisted fitted PCA: the fit-time input feature count
`n_features_in_` and the (deterministic) linear projection applied by
`pca.transform`, kept abstract since the claims only constrain its input
shape. NaN cells may flow into it, hence the `Val`-level signature. -/
structure PCAModel where
  n_features_in_ : Option Nat
  transform : List Val → List Val

-- ===================================================================
-- The inference feature pipeline (calculate_features.py)
-- ===================================================================

/-- Errors raised by the inference pipeline. `missingNominalColumns` is the
`ValueError` of `_check_nominal_columns_present`; `oneHotRuntime` is the
`RuntimeError` that `apply_onehot` wraps around a failed encoder transform;
`shapeMismatch` is the `RuntimeError` of `apply_pca`, carrying the expected
count, the actual count and the expected feature-name list that its message
reports. -/
inductive PipeErr where
  | missingNominalColumns (missing : List String)
  | oneHotRuntime (msg : String)
  | shapeMismatch (expected : Nat) (actual : Nat) (expected_features : List String)
deriving DecidableEq

/-- `{"EXCELLENT": 3, "VG": 2, "GOOD": 1, "AVERAGE": 0}` (the target mapping of
`FeatureInferencePipelineAdjusted.__init__`). -/
def target_mapping : List (String × ℚ) :=
  [("EXCELLENT", 3), ("VG", 2), ("GOOD", 1), ("AVERAGE", 0)]

/-- State of a constructed `FeatureInferencePipelineAdjusted` (the loaded
artifacts plus the configuration attributes set by `__init__`). -/
structure InferencePipeline where
  ordinal_mapping : List (String × List (String × ℚ))
  nominal_variables : List String
  ordinal_variables : List String
  target_variable : String
  encoder : OneHotEncoderModel
  pca : PCAModel
  expected_onehot_names : List String

/-- `FeatureInferencePipelineAdjusted.__init__` after the artifacts have been
loaded: if the encoder records `feature_names_in_`, that list replaces the
caller-supplied nominal variables; `expected_onehot_names` is then derived
from the encoder over the chosen nominal list. -/
def initInferencePipeline (encoder : OneHotEncoderModel) (pca : PCAModel)
    (ordinal_mapping : List (String × List (String × ℚ)))
    (nominal_variables ordinal_variables : List String)
    (target_variable : String) : InferencePipeline :=
  let nv :=
    match encoder.feature_names_in_ with
    | some names => names
    | none => nominal_variables
  { ordinal_mapping := ordinal_mapping
    nominal_variables := nv
    ordinal_variables := ordinal_variables
    target_variable := target_variable
    encoder := encoder
    pca := pca
    expected_onehot_names := encoder.get_feature_names_out nv }

/-- One iteration of the `encode_ordinal` loop: if the ordinal column is
present, assign `{col}_encoded` to the mapped value, else skip. -/
def encode_ordinal_step (pl : InferencePipeline) (df : Row) (col : String) : Row :=
  match Row.getOpt df col with
  | some v =>
    Row.setCol df (col ++ "_encoded")
      (seriesMapVal ((lookupKey pl.ordinal_mapping col).getD []) v)
  | none => df

/-- `encode_ordinal`: for each ordinal column present in the input, add the
`{col}_encoded` column holding the value mapped through the ordinal mapping. -/
def encode_ordinal (pl : InferencePipeline) (df : Row) : Row :=
  pl.ordinal_variables.foldl (encode_ordinal_step pl) df

/-- `_check_nominal_columns_present`: ValueError listing the nominal columns
required by the encoder but absent from the input. -/
def check_nominal_columns_present (pl : InferencePipeline) (df : Row) : Except PipeErr Unit :=
  let missing := pl.nominal_variables.filter (fun c => !(Row.hasCol df c))
  if missing.isEmpty then Except.ok () else Except.error (PipeErr.missingNominalColumns missing)

/-- One iteration of the padding loop of `_force_onehot_dataframe`: if the
expected column is absent, append it filled with zeros. -/
def pad_onehot_step (df : Row) (c : String) : Row :=
  if Row.hasCol df c then df else Row.setCol df c (Val.num 0)

/-- `_force_onehot_dataframe`: add (zero-filled) every expected one-hot column
that is absent, drop every column outside the expected set, and reorder to the
expected order. -/
def force_onehot_dataframe (pl : InferencePipeline) (onehot_df : Row) : Row :=
  let padded := pl.expected_onehot_names.foldl pad_onehot_step onehot_df
  let kept := padded.filter (fun p => decide (p.1 ∈ pl.expected_onehot_names))
  Row.select kept pl.expected_onehot_names

/-- `apply_onehot`: check the nominal columns are present, transform them with
the trained encoder (wrapping an encoder failure in a RuntimeError), force the
expected one-hot schema, then drop the raw nominal columns and append the
one-hot block. -/
def apply_onehot (pl : InferencePipeline) (df : Row) : Except PipeErr Row :=
  match check_nominal_columns_present pl df with
  | Except.error e => Except.error e
  | Except.ok _ =>
    let X_nominal := Row.select df pl.nominal_variables
    match pl.encoder.transform (X_nominal.map Prod.snd) with
    | Except.error e => Except.error (PipeErr.oneHotRuntime e)
    | Except.ok onehot_arr =>
      let onehot_cols := pl.encoder.get_feature_names_out pl.nominal_variables
      let onehot_df : Row := onehot_cols.zip (onehot_arr.map Val.num)
      let onehot_forced := force_onehot_dataframe pl onehot_df
      let dropped := pl.nominal_variables.foldl (fun d c => Row.dropCol d c) df
      Except.ok (dropped ++ onehot_forced)

/-- The PCA input schema: expected one-hot columns followed by the ordinal
encoded columns (`all_pca_features` in `apply_pca`). -/
def all_pca_features_of (pl : InferencePipeline) : List String :=
  pl.expected_onehot_names ++ pl.ordinal_variables.map (fun col => col ++ "_encoded")

/-- `apply_pca`: drop the target if present, zero-fill any missing PCA input
column, select the PCA input columns in order, fail with the shape-mismatch
RuntimeError if the count differs from the fit-time `n_features_in_`, and
otherwise project and emit the `PC{i}` columns. -/
def apply_pca (pl : InferencePipeline) (r : Row) : Except PipeErr Row :=
  let df := if Row.hasCol r pl.target_variable then Row.dropCol r pl.target_variable else r
  let n_expected : Nat :=
    match pl.pca.n_features_in_ with
    | some n => n
    | none => pl.expected_onehot_names.length
  let all_pca_features := all_pca_features_of pl
  let missing_for_pca := all_pca_features.filter (fun c => !(Row.hasCol df c))
  let filled := missing_for_pca.foldl (fun d c => Row.setCol d c (Val.num 0)) df
  let X : List Val := (Row.select filled all_pca_features).map Prod.snd
  if X.length ≠ n_expected then
    Except.error (PipeErr.shapeMismatch n_expected X.length all_pca_features)
  else
    let X_pca := pl.pca.transform X
    Except.ok (((List.range X_pca.length).map (fun i => "PC" ++ toString (i + 1))).zip X_pca)

/-- Steps 2-5 of `transform`: ordinal encoding, one-hot encoding, dropping the
raw ordinal columns, and (optionally) the PCA projection. -/
def transform_feature_steps (pl : InferencePipeline) (df : Row)
    (apply_reduction : Bool) : Except PipeErr Row :=
  let df1 := encode_ordinal pl df
  match apply_onehot pl df1 with
  | Except.error e => Except.error e
  | Except.ok df2 =>
    let drop_cols := pl.ordinal_variables.filter (fun c => Row.hasCol df2 c)
    let df3 := drop_cols.foldl (fun d c => Row.dropCol d c) df2
    if apply_reduction then apply_pca pl df3 else Except.ok df3

/-- `FeatureInferencePipelineAdjusted.transform`: set the target aside if
present, run the feature steps, and reattach the target re-encoded through the
target mapping. -/
def pipeline_transform (pl : InferencePipeline) (r : Row)
    (apply_reduction : Bool) : Except PipeErr Row :=
  let target_series : Option Val :=
    if Row.hasCol r pl.target_variable then Row.getOpt r pl.target_variable else none
  let df := if Row.hasCol r pl.target_variable then Row.dropCol r pl.target_variable else r
  match transform_feature_steps pl df apply_reduction with
  | Except.error e => Except.error e
  | Except.ok out =>
    match target_series with
    | some t => Except.ok (Row.setCol out pl.target_variable (seriesMapVal target_mapping t))
    | none => Except.ok out

-- ===================================================================
-- ModelTrainer (train_model.py) and ModelPredictor (api.py)
-- ===================================================================

/-- The metric value recorded for a candidate (`metrics[metric]` in
`get_best_model`; the claims only concern candidates whose metric is
recorded, so the default for an absent key is irrelevant to them). -/
def mval (metric : String) (p : String × List (String × ℚ)) : ℚ :=
  (lookupKey p.2 metric).getD 0

/-- One iteration of the `get_best_model` loop over the recorded metrics: keep
the running best, replacing it only on strict improvement (`value >
best_value` when maximizing, `value < best_value` when minimizing). `none`
models the initial infinite bound, which any value strictly improves. -/
def best_step (metric : String) (maximize : Bool)
    (acc : Option (ℚ × String)) (p : String × List (String × ℚ)) : Option (ℚ × String) :=
  match acc with
  | none => some (mval metric p, p.1)
  | some (best_value, best_model) =>
    if maximize then
      if best_value < mval metric p then some (mval metric p, p.1)
      else some (best_value, best_model)
    else
      if mval metric p < best_value then some (mval metric p, p.1)
      else some (best_value, best_model)

/-- `ModelTrainer.get_best_model`: one pass over `model_metrics` in training
(insertion) order returning the name of the best candidate; `none` models the
ValueError raised when no model has been trained. -/
def get_best_model (model_metrics : List (String × List (String × ℚ)))
    (metric : String) (maximize : Bool) : Option String :=
  (model_metrics.foldl (best_step metric maximize) none).map Prod.snd

/-- `numpy.rint`: round to the nearest integer, ties to the even integer. -/
def rint (q : ℚ) : ℤ :=
  if Int.fract q < 1 / 2 then ⌊q⌋
  else if 1 / 2 < Int.fract q then ⌊q⌋ + 1
  else if 2 ∣ ⌊q⌋ then ⌊q⌋ else ⌊q⌋ + 1

/-- `evaluate_and_log_model` line 203: the integer class predictions
(`np.rint(y_pred).astype(int)`) on which both RMSE and the quadratic weighted
kappa are then computed. -/
def evaluation_pred_class (y_pred : List ℚ) : List ℤ :=
  y_pred.map rint

/-- Clipping into the valid label range [0, 3] (`max(0, min(3, x))`, as done in
`api.py` line 263). -/
def clip03 (z : ℤ) : ℤ :=
  max 0 (min 3 z)

/-- The mean squared error of integer class predictions against true labels
(the square of the RMSE logged by `evaluate_and_log_model`). -/
def mean_squared_error (y_true : List ℚ) (y_pred_class : List ℤ) : ℚ :=
  (((y_true.zip y_pred_class).map (fun p => (p.1 - (p.2 : ℚ)) ^ 2)).sum) / (y_true.length : ℚ)

/-- `ModelPredictor.prediction_mapping` from `api.py`. -/
def prediction_mapping : List (ℤ × String) :=
  [(0, "AVERAGE"), (1, "GOOD"), (2, "VG"), (3, "EXCELLENT")]

/-- The `/predict` response schema. -/
structure PredictionResponse where
  prediction : String
  prediction_numeric : ℤ
deriving DecidableEq

/-- `ModelPredictor.predict` after the regressor returned the raw value
`y_pred`: round with `np.rint`, clip into [0, 3], and map through
`prediction_mapping` (the lookup default is dead code: the clipped class is
always a key of the mapping, as proved below). -/
def predictor_predict (y_pred : ℚ) : PredictionResponse :=
  let y_pred_class := rint y_pred
  let clipped := clip03 y_pred_class
  { prediction := (lookupKey prediction_mapping clipped).getD ""
    prediction_numeric := clipped }

-- ===================================================================
-- Helper lemmas about the pipeline building blocks
-- ===================================================================

theorem getOpt_padfold_preserve (names : List String) (oh : Row) (c : String)
    (h : Row.hasCol oh c = true) :
    Row.getOpt (names.foldl pad_onehot_step oh) c = Row.getOpt oh c := by
  induction names generalizing oh with
  | nil => rfl
  | cons n names ih =>
    simp only [List.foldl]
    by_cases hn : Row.hasCol oh n
    · rw [show pad_onehot_step oh n = oh from by simp [pad_onehot_step, hn]]
      exact ih oh h
    · rw [show pad_onehot_step oh n = Row.setCol oh n (Val.num 0) from by
        simp [pad_onehot_step, hn]]
      have hcn : c ≠ n := fun he => hn (he ▸ h)
      have hget : Row.getOpt (Row.setCol oh n (Val.num 0)) c = Row.getOpt oh c :=
        getOpt_setCol_ne oh c n _ hcn
      have hhas : Row.hasCol (Row.setCol oh n (Val.num 0)) c = true := by
        unfold Row.hasCol; rw [hget]; exact h
      rw [ih _ hhas, hget]

theorem getOpt_padfold (names : List String) (oh : Row) (c : String) (hc : c ∈ names) :
    Row.getOpt (names.foldl pad_onehot_step oh) c
      = some ((Row.getOpt oh c).getD (Val.num 0)) := by
  induction names generalizing oh with
  | nil => cases hc
  | cons n names ih =>
    simp only [List.foldl]
    by_cases hcn : c = n
    · subst hcn
      by_cases hn : Row.hasCol oh c
      · rw [show pad_onehot_step oh c = oh from by simp [pad_onehot_step, hn]]
        rw [getOpt_padfold_preserve names oh c hn]
        unfold Row.hasCol at hn
        cases hv : Row.getOpt oh c with
        | none => rw [hv] at hn; simp at hn
        | some v => simp [hv]
      · rw [show pad_onehot_step oh c = Row.setCol oh c (Val.num 0) from by
          simp [pad_onehot_step, hn]]
        have hset : Row.getOpt (Row.setCol oh c (Val.num 0)) c = some (Val.num 0) :=
          getOpt_setCol_self oh c _
        have hhas : Row.hasCol (Row.setCol oh c (Val.num 0)) c = true := by
          unfold Row.hasCol; rw [hset]; rfl
        rw [getOpt_padfold_preserve names _ c hhas, hset]
        have hnone : Row.getOpt oh c = none := by
          unfold Row.hasCol at hn
          cases hv : Row.getOpt oh c with
          | none => rfl
          | some v => rw [hv] at hn; simp at hn
        simp [hnone]
    · have hc2 : c ∈ names := by
        cases hc with
        | head => exact absurd rfl hcn
        | tail _ h2 => exact h2
      by_cases hn : Row.hasCol oh n
      · rw [show pad_onehot_step oh n = oh from by simp [pad_onehot_step, hn]]
        exact ih oh hc2
      · rw [show pad_onehot_step oh n = Row.setCol oh n (Val.num 0) from by
          simp [pad_onehot_step, hn]]
        rw [ih _ hc2, getOpt_setCol_ne oh c n _ hcn]

theorem getOpt_filter_of_key (r : Row) (f : String × Val → Bool) (c : String)
    (hf : ∀ v, f (c, v) = true) :
    Row.getOpt (r.filter f) c = Row.getOpt r c := by
  induction r with
  | nil => rfl
  | cons p r ih =>
    by_cases hpc : p.1 = c
    · have hfp : f p = true := by
        rcases p with ⟨k, v⟩
        simp only at hpc
        subst hpc
        exact hf v
      rw [List.filter_cons_of_pos hfp]
      simp [Row.getOpt, lookupKey, hpc]
    · cases hfp : f p with
      | true =>
        rw [List.filter_cons_of_pos hfp]
        simp only [Row.getOpt, lookupKey, hpc, if_neg, if_false]
        exact ih
      | false =>
        rw [List.filter_cons_of_neg (by simp [hfp])]
        simp only [Row.getOpt, lookupKey, hpc, if_neg, if_false]
        exact ih

theorem getOpt_select_mem (r : Row) (cs : List String) (c : String) (hc : c ∈ cs) :
    Row.getOpt (Row.select r cs) c = some ((Row.getOpt r c).getD Val.missing) := by
  induction cs with
  | nil => cases hc
  | cons d cs ih =>
    by_cases hdc : d = c
    · subst hdc
      simp [Row.select, Row.getOpt, lookupKey]
    · have hc2 : c ∈ cs := by
        cases hc with
        | head => exact absurd rfl hdc
        | tail _ h2 => exact h2
      simp only [Row.select, List.map, Row.getOpt, lookupKey, hdc, if_neg, if_false]
      simpa [Row.select, Row.getOpt] using ih hc2

theorem select_map_fst (r : Row) (cs : List String) :
    (Row.select r cs).map Prod.fst = cs := by
  induction cs with
  | nil => rfl
  | cons d cs ih =>
    simp only [Row.select, List.map] at ih ⊢
    rw [ih]

theorem select_length (r : Row) (cs : List String) :
    ((Row.select r cs).map Prod.snd).length = cs.length := by
  simp [Row.select]

-- ===================================================================
-- Concrete fitted artifacts used by the witness scenarios
-- ===================================================================

/-- Encoder fitted (as `FeatureBuilder.onehot_encode` does) on two training
rows whose `Caste` values are GENERAL and OBC. -/
def encCaste : OneHotEncoderModel :=
  fitOneHotEncoder [[("Caste", Val.str "GENERAL")], [("Caste", Val.str "OBC")]] ["Caste"]

/-- A persisted PCA fitted on one input feature (identity projection). -/
def pcaOne : PCAModel :=
  { n_features_in_ := some 1, transform := fun x => x }

/-- Inference pipeline loaded from the two artifacts above, with no ordinal
columns and a deliberately wrong caller-supplied nominal list (which the
constructor must override from the encoder). -/
def plCaste : InferencePipeline :=
  initInferencePipeline encCaste pcaOne [] ["caller", "supplied"] [] "Performance"

-- ===================================================================
-- Claims
-- ===================================================================

/-- Claim C5: on construction the pipeline derives its nominal-column list
from the loaded encoder artifact whenever the encoder records its fit-time
feature names, ignoring the caller-supplied list `L`, and derives
`expected_onehot_names` from the encoder over that recorded list. -/
theorem C5_schema_from_encoder (encoder : OneHotEncoderModel) (pca : PCAModel)
    (ordinal_mapping : List (String × List (String × ℚ)))
    (L ordinal_variables : List String) (target_variable : String)
    (names : List String) (h : encoder.feature_names_in_ = some names) :
    (initInferencePipeline encoder pca ordinal_mapping L ordinal_variables
        target_variable).nominal_variables = names ∧
    (initInferencePipeline encoder pca ordinal_mapping L ordinal_variables
        target_variable).expected_onehot_names = encoder.get_feature_names_out names := by
  unfold initInferencePipeline
  rw [h]
  exact ⟨rfl, rfl⟩

/-- Witness for C5 at concrete inputs: the caller-supplied nominal list is
overridden by the list the encoder was fitted on. -/
theorem C5_witness :
    plCaste.nominal_variables = ["Caste"] ∧
    plCaste.expected_onehot_names = encCaste.get_feature_names_out ["Caste"] :=
  C5_schema_from_encoder encCaste pcaOne [] ["caller", "supplied"] [] "Performance"
    ["Caste"] rfl

theorem clip03_range (z : ℤ) : 0 ≤ clip03 z ∧ clip03 z ≤ 3 := by
  unfold clip03
  constructor
  · exact le_max_left 0 _
  · exact max_le (by norm_num) (min_le_left 3 z)

/-- Claim C9: every serving-time prediction is rounded, clipped into [0, 3]
and mapped to exactly one of the four label strings: the numeric field of the
response is an integer in [0, 3] and the string field is the label the
prediction mapping associates to it. -/
theorem C9_prediction_range (y_pred : ℚ) :
    0 ≤ (predictor_predict y_pred).prediction_numeric ∧
    (predictor_predict y_pred).prediction_numeric ≤ 3 ∧
    lookupKey prediction_mapping (predictor_predict y_pred).prediction_numeric =
      some (predictor_predict y_pred).prediction ∧
    ((predictor_predict y_pred).prediction = "AVERAGE" ∨
      (predictor_predict y_pred).prediction = "GOOD" ∨
      (predictor_predict y_pred).prediction = "VG" ∨
      (predictor_predict y_pred).prediction = "EXCELLENT") := by
  have h := clip03_range (rint y_pred)
  have hcases : clip03 (rint y_pred) = 0 ∨ clip03 (rint y_pred) = 1 ∨
      clip03 (rint y_pred) = 2 ∨ clip03 (rint y_pred) = 3 := by omega
  simp only [predictor_predict]
  rcases hcases with h0 | h0 | h0 | h0 <;> rw [h0] <;>
    simp [prediction_mapping, lookupKey]

/-- Claim C3: with a persisted reducer expecting `N` input features, the
reduction step fails with the shape-mismatch error naming `N`, the reconciled
feature count `M`, and the expected feature columns whenever `M` differs from
`N`, and succeeds (no such error) when `M = N`. -/
theorem C3_shape_contract (pl : InferencePipeline) (r : Row) (N : Nat)
    (hN : pl.pca.n_features_in_ = some N) :
    ((all_pca_features_of pl).length ≠ N →
      apply_pca pl r = Except.error
        (PipeErr.shapeMismatch N (all_pca_features_of pl).length (all_pca_features_of pl)))
    ∧ ((all_pca_features_of pl).length = N → ∃ out, apply_pca pl r = Except.ok out) := by
  simp only [apply_pca, hN]
  rw [select_length]
  constructor
  · intro hne
    rw [if_pos hne]
  · intro heq
    rw [if_neg (by simpa using heq)]
    exact ⟨_, rfl⟩

/-- Witness for C3: a reducer expecting 1 feature rejects a pipeline schema of
2 reconciled features with the mismatch error, and accepts a schema of 1. -/
theorem C3_witness :
    (apply_pca (initInferencePipeline encCaste pcaOne
        [] [] ["Class_X_Percentage"] "Performance") [] =
      Except.error (PipeErr.shapeMismatch 1 2 ["Caste_OBC", "Class_X_Percentage_encoded"])) ∧
    (∃ out, apply_pca plCaste [] = Except.ok out) := by
  constructor
  · have h := (C3_shape_contract (initInferencePipeline encCaste pcaOne
      [] [] ["Class_X_Percentage"] "Performance") [] 1 rfl).1 (by decide)
    simpa using h
  · exact (C3_shape_contract plCaste [] 1 rfl).2 (by decide)

/-- Claim C4: the one-hot reconciliation step returns exactly the persisted
expected one-hot columns in the persisted order, each expected column carrying
its value from the encoder output when present and 0.0 when absent (extra
columns are dropped). -/
theorem C4_force_onehot_schema (pl : InferencePipeline) (onehot_df : Row) :
    (force_onehot_dataframe pl onehot_df).map Prod.fst = pl.expected_onehot_names ∧
    ∀ c ∈ pl.expected_onehot_names,
      Row.getOpt (force_onehot_dataframe pl onehot_df) c =
        some ((Row.getOpt onehot_df c).getD (Val.num 0)) := by
  constructor
  · unfold force_onehot_dataframe
    exact select_map_fst _ _
  · intro c hc
    unfold force_onehot_dataframe
    rw [getOpt_select_mem _ _ c hc]
    rw [getOpt_filter_of_key _ _ c (by intro v; simp [hc])]
    rw [getOpt_padfold _ _ c hc]
    simp

/-- Witness for C4: a one-hot output with a spurious column and without the
expected `Caste_OBC` column is reconciled to exactly the expected schema, the
missing expected column zero-filled. -/
theorem C4_witness :
    (force_onehot_dataframe plCaste [("spurious", Val.num 1)]).map Prod.fst =
      plCaste.expected_onehot_names ∧
    Row.getOpt (force_onehot_dataframe plCaste [("spurious", Val.num 1)]) "Caste_OBC" =
      some (Val.num 0) := by
  have h := C4_force_onehot_schema plCaste [("spurious", Val.num 1)]
  refine ⟨h.1, ?_⟩
  have h2 := h.2 "Caste_OBC" (by decide)
  simpa using h2

theorem hasCol_dropCol_self (r : Row) (c : String) :
    Row.hasCol (Row.dropCol r c) c = false := by
  unfold Row.hasCol
  rw [getOpt_dropCol]
  simp

/-- Claim C6: when the target column is present, `transform` equals the
transform of the target-free input (the label never reaches the feature
path), with the target reattached at the end re-encoded through the target
mapping. -/
theorem C6_target_isolation (pl : InferencePipeline) (r : Row) (t : Val) (b : Bool)
    (ht : Row.getOpt r pl.target_variable = some t) :
    pipeline_transform pl r b =
      (pipeline_transform pl (Row.dropCol r pl.target_variable) b).map
        (fun out => Row.setCol out pl.target_variable (seriesMapVal target_mapping t)) := by
  have hhas : Row.hasCol r pl.target_variable = true := by
    unfold Row.hasCol; rw [ht]; rfl
  have hhas2 : Row.hasCol (Row.dropCol r pl.target_variable) pl.target_variable = false :=
    hasCol_dropCol_self r pl.target_variable
  simp only [pipeline_transform, hhas, hhas2, ht]
  cases hsteps : transform_feature_steps pl (Row.dropCol r pl.target_variable) b with
  | error e => simp [hsteps, Except.map]
  | ok out => simp [hsteps, Except.map]

/-- Witness for C6: transforming a row carrying `Performance = "VG"` equals
the target-free transform with the target reattached as its numeric code 2. -/
theorem C6_witness :
    pipeline_transform plCaste
        [("Caste", Val.str "OBC"), ("Performance", Val.str "VG")] false =
      (pipeline_transform plCaste [("Caste", Val.str "OBC")] false).map
        (fun out => Row.setCol out "Performance" (seriesMapVal target_mapping (Val.str "VG"))) ∧
    pipeline_transform plCaste
        [("Caste", Val.str "OBC"), ("Performance", Val.str "VG")] false =
      Except.ok [("Caste_OBC", Val.num 1), ("Performance", Val.num 2)] := by
  constructor
  · have h := C6_target_isolation plCaste
      [("Caste", Val.str "OBC"), ("Performance", Val.str "VG")] (Val.str "VG") false rfl
    simpa using h
  · rfl

theorem encode_ordinal_fold_preserve (pl : InferencePipeline) (l : List String)
    (acc : Row) (d : String) (h : ∀ c ∈ l, ¬ c ++ "_encoded" = d) :
    Row.getOpt (l.foldl (encode_ordinal_step pl) acc) d = Row.getOpt acc d := by
  induction l generalizing acc with
  | nil => rfl
  | cons a l ih =>
    simp only [List.foldl]
    rw [ih _ (fun c hc => h c (List.mem_cons_of_mem a hc))]
    unfold encode_ordinal_step
    cases hv : Row.getOpt acc a with
    | none => rfl
    | some v =>
      exact getOpt_setCol_ne acc d _ _ (fun he => h a (List.mem_cons_self a l) he.symm)

/-- Claim C10: an input lacking a raw nominal column required by the encoder
makes `transform` fail with the ValueError listing the missing columns (raw
nominal inputs are never zero-filled; the zero-fill policy applies only to
one-hot output columns). -/
theorem C10_missing_nominal_error (pl : InferencePipeline) (r : Row) (b : Bool) (c : String)
    (hc : c ∈ pl.nominal_variables)
    (habs : Row.getOpt r c = none)
    (henc : ∀ o ∈ pl.ordinal_variables, ¬ o ++ "_encoded" = c) :
    ∃ missing, pipeline_transform pl r b =
      Except.error (PipeErr.missingNominalColumns missing) ∧ c ∈ missing := by
  have habs0 : Row.getOpt
      (if Row.hasCol r pl.target_variable then Row.dropCol r pl.target_variable else r) c
        = none := by
    by_cases h : Row.hasCol r pl.target_variable
    · rw [if_pos h, getOpt_dropCol]
      by_cases hct : c = pl.target_variable
      · rw [if_pos hct]
      · rw [if_neg hct]; exact habs
    · rw [if_neg h]; exact habs
  set df0 := if Row.hasCol r pl.target_variable then Row.dropCol r pl.target_variable else r
    with hdf0
  have habs1 : Row.getOpt (encode_ordinal pl df0) c = none := by
    unfold encode_ordinal
    rw [encode_ordinal_fold_preserve pl _ df0 c henc]
    exact habs0
  have hhc : Row.hasCol (encode_ordinal pl df0) c = false := by
    unfold Row.hasCol; rw [habs1]; rfl
  have hcmem : c ∈ pl.nominal_variables.filter
      (fun x => !(Row.hasCol (encode_ordinal pl df0) x)) :=
    List.mem_filter.mpr ⟨hc, by rw [hhc]; rfl⟩
  refine ⟨pl.nominal_variables.filter (fun x => !(Row.hasCol (encode_ordinal pl df0) x)),
    ?_, hcmem⟩
  have hempty : (pl.nominal_variables.filter
      (fun x => !(Row.hasCol (encode_ordinal pl df0) x))).isEmpty = false := by
    cases hl : pl.nominal_variables.filter
        (fun x => !(Row.hasCol (encode_ordinal pl df0) x)) with
    | nil => exact absurd hl (List.ne_nil_of_mem hcmem)
    | cons a l => rfl
  have hcheck : check_nominal_columns_present pl (encode_ordinal pl df0) =
      Except.error (PipeErr.missingNominalColumns (pl.nominal_variables.filter
        (fun x => !(Row.hasCol (encode_ordinal pl df0) x)))) := by
    unfold check_nominal_columns_present
    rw [if_neg (by rw [hempty]; exact Bool.false_ne_true)]
  have hoh : apply_onehot pl (encode_ordinal pl df0) =
      Except.error (PipeErr.missingNominalColumns (pl.nominal_variables.filter
        (fun x => !(Row.hasCol (encode_ordinal pl df0) x)))) := by
    unfold apply_onehot
    rw [hcheck]
  have hsteps : transform_feature_steps pl df0 b =
      Except.error (PipeErr.missingNominalColumns (pl.nominal_variables.filter
        (fun x => !(Row.hasCol (encode_ordinal pl df0) x)))) := by
    simp only [transform_feature_steps, hoh]
  simp only [pipeline_transform, ← hdf0, hsteps]

/-- Witness for C10: an empty input row (no `Caste` column) is rejected with
the missing-columns error rather than zero-filled. -/
theorem C10_witness :
    (∃ missing, pipeline_transform plCaste [] false =
      Except.error (PipeErr.missingNominalColumns missing) ∧ "Caste" ∈ missing) ∧
    pipeline_transform plCaste [] false =
      Except.error (PipeErr.missingNominalColumns ["Caste"]) := by
  constructor
  · exact C10_missing_nominal_error plCaste [] false "Caste" (by decide) rfl (by decide)
  · rfl

/-- Strict-improvement order used by the selection loop: with `maximize` a
value is better when strictly larger, otherwise when strictly smaller. -/
def metricBetter (maximize : Bool) (a b : ℚ) : Prop :=
  if maximize then b < a else a < b

theorem fold_best_max (metric : String) (l : List (String × List (String × ℚ)))
    (bv : ℚ) (bm : String) :
    ∃ v m, l.foldl (best_step metric true) (some (bv, bm)) = some (v, m) ∧
      bv ≤ v ∧ (∀ p ∈ l, mval metric p ≤ v) ∧
      ((v = bv ∧ m = bm) ∨
        ∃ i, ∃ hi : i < l.length, m = (l.get ⟨i, hi⟩).1 ∧ v = mval metric (l.get ⟨i, hi⟩) ∧
          bv < v ∧ ∀ j, ∀ hj : j < i, mval metric (l.get ⟨j, lt_trans hj hi⟩) < v) := by
  induction l generalizing bv bm with
  | nil => exact ⟨bv, bm, rfl, le_refl bv, by simp, Or.inl ⟨rfl, rfl⟩⟩
  | cons p l ih =>
    simp only [List.foldl]
    by_cases hcmp : bv < mval metric p
    · have hstep : best_step metric true (some (bv, bm)) p = some (mval metric p, p.1) := by
        simp [best_step, hcmp]
      rw [hstep]
      obtain ⟨v, m, hfold, hle, hall, hdisj⟩ := ih (mval metric p) p.1
      refine ⟨v, m, hfold, le_of_lt (lt_of_lt_of_le hcmp hle), ?_, ?_⟩
      · intro q hq
        rcases List.mem_cons.mp hq with hq | hq
        · exact hq ▸ hle
        · exact hall q hq
      · rcases hdisj with ⟨hv, hm⟩ | ⟨i, hi, hm, hv, hbv, hfirst⟩
        · refine Or.inr ⟨0, Nat.succ_pos _, hm, hv, hv ▸ hcmp, ?_⟩
          intro j hj
          exact absurd hj (Nat.not_lt_zero j)
        · refine Or.inr ⟨i + 1, Nat.succ_lt_succ hi, hm, hv, lt_trans hcmp hbv, ?_⟩
          intro j hj
          cases j with
          | zero => exact hbv
          | succ k => exact hfirst k (Nat.lt_of_succ_lt_succ hj)
    · have hstep : best_step metric true (some (bv, bm)) p = some (bv, bm) := by
        simp [best_step, hcmp]
      rw [hstep]
      obtain ⟨v, m, hfold, hle, hall, hdisj⟩ := ih bv bm
      refine ⟨v, m, hfold, hle, ?_, ?_⟩
      · intro q hq
        rcases List.mem_cons.mp hq with hq | hq
        · exact hq ▸ le_trans (not_lt.mp hcmp) hle
        · exact hall q hq
      · rcases hdisj with hleft | ⟨i, hi, hm, hv, hbv, hfirst⟩
        · exact Or.inl hleft
        · refine Or.inr ⟨i + 1, Nat.succ_lt_succ hi, hm, hv, hbv, ?_⟩
          intro j hj
          cases j with
          | zero => exact lt_of_le_of_lt (not_lt.mp hcmp) hbv
          | succ k => exact hfirst k (Nat.lt_of_succ_lt_succ hj)

theorem fold_best_min (metric : String) (l : List (String × List (String × ℚ)))
    (bv : ℚ) (bm : String) :
    ∃ v m, l.foldl (best_step metric false) (some (bv, bm)) = some (v, m) ∧
      v ≤ bv ∧ (∀ p ∈ l, v ≤ mval metric p) ∧
      ((v = bv ∧ m = bm) ∨
        ∃ i, ∃ hi : i < l.length, m = (l.get ⟨i, hi⟩).1 ∧ v = mval metric (l.get ⟨i, hi⟩) ∧
          v < bv ∧ ∀ j, ∀ hj : j < i, v < mval metric (l.get ⟨j, lt_trans hj hi⟩)) := by
  induction l generalizing bv bm with
  | nil => exact ⟨bv, bm, rfl, le_refl bv, by simp, Or.inl ⟨rfl, rfl⟩⟩
  | cons p l ih =>
    simp only [List.foldl]
    by_cases hcmp : mval metric p < bv
    · have hstep : best_step metric false (some (bv, bm)) p = some (mval metric p, p.1) := by
        simp [best_step, hcmp]
      rw [hstep]
      obtain ⟨v, m, hfold, hle, hall, hdisj⟩ := ih (mval metric p) p.1
      refine ⟨v, m, hfold, le_of_lt (lt_of_le_of_lt hle hcmp), ?_, ?_⟩
      · intro q hq
        rcases List.mem_cons.mp hq with hq | hq
        · exact hq ▸ hle
        · exact hall q hq
      · rcases hdisj with ⟨hv, hm⟩ | ⟨i, hi, hm, hv, hbv, hfirst⟩
        · refine Or.inr ⟨0, Nat.succ_pos _, hm, hv, hv ▸ hcmp, ?_⟩
          intro j hj
          exact absurd hj (Nat.not_lt_zero j)
        · refine Or.inr ⟨i + 1, Nat.succ_lt_succ hi, hm, hv, lt_trans hbv hcmp, ?_⟩
          intro j hj
          cases j with
          | zero => exact hbv
          | succ k => exact hfirst k (Nat.lt_of_succ_lt_succ hj)
    · have hstep : best_step metric false (some (bv, bm)) p = some (bv, bm) := by
        simp [best_step, hcmp]
      rw [hstep]
      obtain ⟨v, m, hfold, hle, hall, hdisj⟩ := ih bv bm
      refine ⟨v, m, hfold, hle, ?_, ?_⟩
      · intro q hq
        rcases List.mem_cons.mp hq with hq | hq
        · exact hq ▸ le_trans hle (not_lt.mp hcmp)
        · exact hall q hq
      · rcases hdisj with hleft | ⟨i, hi, hm, hv, hbv, hfirst⟩
        · exact Or.inl hleft
        · refine Or.inr ⟨i + 1, Nat.succ_lt_succ hi, hm, hv, hbv, ?_⟩
          intro j hj
          cases j with
          | zero => exact lt_of_lt_of_le hbv (not_lt.mp hcmp)
          | succ k => exact hfirst k (Nat.lt_of_succ_lt_succ hj)

/-- Claim C7: over a non-empty collection of trained candidates with recorded
metric values, `get_best_model` returns the name of the candidate whose metric
value is best (maximal when maximizing, minimal otherwise), and on ties the
first candidate in training-insertion order wins: the returned index is
optimal and every earlier candidate is strictly worse. -/
theorem C7_get_best_model (mm : List (String × List (String × ℚ))) (metric : String)
    (maximize : Bool) (hne : mm ≠ [])
    (hrec : ∀ p ∈ mm, (lookupKey p.2 metric).isSome = true) :
    ∃ i, ∃ hi : i < mm.length,
      get_best_model mm metric maximize = some (mm.get ⟨i, hi⟩).1 ∧
      (∀ j, ∀ hj : j < mm.length,
        ¬ metricBetter maximize (mval metric (mm.get ⟨j, hj⟩))
          (mval metric (mm.get ⟨i, hi⟩))) ∧
      (∀ j, ∀ hj : j < mm.length, j < i →
        metricBetter maximize (mval metric (mm.get ⟨i, hi⟩))
          (mval metric (mm.get ⟨j, hj⟩))) := by
  cases mm with
  | nil => exact absurd rfl hne
  | cons p l =>
    cases maximize with
    | true =>
      have hstep0 : best_step metric true none p = some (mval metric p, p.1) := by
        simp [best_step]
      obtain ⟨v, m, hfold, hle, hall, hdisj⟩ := fold_best_max metric l (mval metric p) p.1
      have hgbm : get_best_model (p :: l) metric true = some m := by
        unfold get_best_model
        simp only [List.foldl, hstep0, hfold, Option.map]
      have hvall : ∀ j, ∀ hj : j < (p :: l).length, mval metric ((p :: l).get ⟨j, hj⟩) ≤ v := by
        intro j hj
        cases j with
        | zero => exact hle
        | succ k =>
          exact hall ((p :: l).get ⟨k + 1, hj⟩)
            (List.get_mem l k (Nat.lt_of_succ_lt_succ hj))
      rcases hdisj with ⟨hv, hm⟩ | ⟨i, hi, hm, hv, hbv, hfirst⟩
      · refine ⟨0, Nat.succ_pos _, ?_, ?_, ?_⟩
        · rw [hgbm, hm]
          rfl
        · intro j hj
          simp only [metricBetter, if_pos]
          exact not_lt.mpr (hv ▸ hvall j hj)
        · intro j hj hj0
          exact absurd hj0 (Nat.not_lt_zero j)
      · refine ⟨i + 1, Nat.succ_lt_succ hi, ?_, ?_, ?_⟩
        · rw [hgbm, hm]
          rfl
        · intro j hj
          simp only [metricBetter, if_pos]
          exact not_lt.mpr (hv ▸ hvall j hj)
        · intro j hj hj0
          simp only [metricBetter, if_pos]
          cases j with
          | zero => exact hv ▸ hbv
          | succ k => exact hv ▸ hfirst k (Nat.lt_of_succ_lt_succ hj0)
    | false =>
      have hstep0 : best_step metric false none p = some (mval metric p, p.1) := by
        simp [best_step]
      obtain ⟨v, m, hfold, hle, hall, hdisj⟩ := fold_best_min metric l (mval metric p) p.1
      have hgbm : get_best_model (p :: l) metric false = some m := by
        unfold get_best_model
        simp only [List.foldl, hstep0, hfold, Option.map]
      have hvall : ∀ j, ∀ hj : j < (p :: l).length, v ≤ mval metric ((p :: l).get ⟨j, hj⟩) := by
        intro j hj
        cases j with
        | zero => exact hle
        | succ k =>
          exact hall ((p :: l).get ⟨k + 1, hj⟩)
            (List.get_mem l k (Nat.lt_of_succ_lt_succ hj))
      rcases hdisj with ⟨hv, hm⟩ | ⟨i, hi, hm, hv, hbv, hfirst⟩
      · refine ⟨0, Nat.succ_pos _, ?_, ?_, ?_⟩
        · rw [hgbm, hm]
          rfl
        · intro j hj
          simp only [metricBetter, if_neg]
          exact not_lt.mpr (hv ▸ hvall j hj)
        · intro j hj hj0
          exact absurd hj0 (Nat.not_lt_zero j)
      · refine ⟨i + 1, Nat.succ_lt_succ hi, ?_, ?_, ?_⟩
        · rw [hgbm, hm]
          rfl
        · intro j hj
          simp only [metricBetter, if_neg]
          exact not_lt.mpr (hv ▸ hvall j hj)
        · intro j hj hj0
          simp only [metricBetter, if_neg]
          cases j with
          | zero => exact hv ▸ hbv
          | succ k => exact hv ▸ hfirst k (Nat.lt_of_succ_lt_succ hj0)

/-- The recorded metrics of the three-candidate scenario of the claim. -/
def scenario_metrics : List (String × List (String × ℚ)) :=
  [("A", [("qwk", 7 / 10)]), ("B", [("qwk", 9 / 10)]), ("C", [("qwk", 5 / 10)])]

/-- Witness for C7: on the scenario `A: 0.7, B: 0.9, C: 0.5` with
`metric = "qwk"` and `maximize = true`, the selected candidate exists by the
theorem, and it is `"B"`. -/
theorem C7_witness :
    (∃ i, ∃ hi : i < scenario_metrics.length,
      get_best_model scenario_metrics "qwk" true = some (scenario_metrics.get ⟨i, hi⟩).1) ∧
    get_best_model scenario_metrics "qwk" true = some "B" := by
  constructor
  · obtain ⟨i, hi, h1, _, _⟩ :=
      C7_get_best_model scenario_metrics "qwk" true (by decide) (by decide)
    exact ⟨i, hi, h1⟩
  · norm_num [get_best_model, scenario_metrics, List.foldl, best_step, mval, lookupKey]

theorem select_map_snd (r : Row) (cs : List String) :
    (Row.select r cs).map Prod.snd = cs.map (fun c => (Row.getOpt r c).getD Val.missing) := by
  induction cs with
  | nil => rfl
  | cons d cs ih =>
    simp only [Row.select, List.map] at ih ⊢
    rw [ih]

theorem get?_zip_some {α β : Type} {l₁ : List α} {l₂ : List β} {i : Nat} {a : α} {b : β}
    (h₁ : l₁.get? i = some a) (h₂ : l₂.get? i = some b) :
    (l₁.zip l₂).get? i = some (a, b) := by
  induction l₁ generalizing l₂ i with
  | nil => simp at h₁
  | cons x l ih =>
    cases l₂ with
    | nil => simp at h₂
    | cons y l₂ =>
      cases i with
      | zero =>
        simp only [List.get?] at h₁ h₂
        cases h₁; cases h₂; rfl
      | succ k =>
        simp only [List.zip_cons_cons, List.get?]
        exact ih h₁ h₂

theorem exceptMapM_error_of_mem {α β : Type} (f : α → Except String β) (l : List α) (x : α)
    (hx : x ∈ l) (hfx : ∀ y, f x ≠ Except.ok y) :
    ∃ e, exceptMapM f l = Except.error e := by
  induction l with
  | nil => cases hx
  | cons a l ih =>
    unfold exceptMapM
    cases hfa : f a with
    | error e => exact ⟨e, rfl⟩
    | ok b =>
      rcases List.mem_cons.mp hx with hxa | hxl
      · exact absurd hfa (hxa ▸ hfx b)
      · obtain ⟨e, he⟩ := ih hxl
        rw [he]
        exact ⟨e, rfl⟩

/-- Claim C1 is refuted: the fitted encoder keeps the sklearn default
`handle_unknown="error"`; fitting on rows with `Caste` in GENERAL and OBC and
transforming a row with the unseen `Caste = SC` raises (model: returns the
wrapped RuntimeError), it does not produce an all-zero indicator row. -/
theorem C1_counterexample :
    pipeline_transform plCaste [("Caste", Val.str "SC")] false =
      Except.error (PipeErr.oneHotRuntime "Found unknown category SC") := by
  rfl

/-- Claim C1 (amended): for a fitted encoder and an input row passing the
column-presence check, any nominal column whose value is not a string of that
column fit-time vocabulary makes `apply_onehot` fail with the RuntimeError
wrapping the encoder failure — the unseen-category policy is an error, not an
all-zero indicator row. -/
theorem C1_unseen_category_raises (pl : InferencePipeline) (r : Row) (i : Nat)
    (c : String) (cats : List String)
    (hpres : ∀ x ∈ pl.nominal_variables, Row.hasCol r x = true)
    (hc : pl.nominal_variables.get? i = some c)
    (hcats : pl.encoder.categories_.get? i = some cats)
    (hun : ∀ s, Row.getOpt r c = some (Val.str s) → s ∉ cats) :
    ∃ msg, apply_onehot pl r = Except.error (PipeErr.oneHotRuntime msg) := by
  have hfilter : pl.nominal_variables.filter (fun x => !(Row.hasCol r x)) = [] := by
    rw [List.filter_eq_nil]
    intro a ha
    rw [hpres a ha]
    simp
  have hcheck : check_nominal_columns_present pl r = Except.ok () := by
    unfold check_nominal_columns_present
    rw [hfilter]
    rfl
  have herr : ∀ y, oneHotColumn cats ((Row.getOpt r c).getD Val.missing) ≠ Except.ok y := by
    intro y
    cases hv : Row.getOpt r c with
    | none =>
      simp only [Option.getD, oneHotColumn]
      exact fun h => Except.noConfusion h
    | some v =>
      cases v with
      | str s =>
        have hs : s ∉ cats := hun s hv
        simp only [Option.getD, oneHotColumn]
        rw [if_neg hs]
        exact fun h => Except.noConfusion h
      | num q =>
        simp only [Option.getD, oneHotColumn]
        exact fun h => Except.noConfusion h
      | missing =>
        simp only [Option.getD, oneHotColumn]
        exact fun h => Except.noConfusion h
  have hv2 : ((Row.select r pl.nominal_variables).map Prod.snd).get? i =
      some ((Row.getOpt r c).getD Val.missing) := by
    rw [select_map_snd, List.get?_map, hc]
    rfl
  have hzip : (pl.encoder.categories_.zip
      ((Row.select r pl.nominal_variables).map Prod.snd)).get? i =
      some (cats, (Row.getOpt r c).getD Val.missing) :=
    get?_zip_some hcats hv2
  have hmem : (cats, (Row.getOpt r c).getD Val.missing) ∈
      pl.encoder.categories_.zip ((Row.select r pl.nominal_variables).map Prod.snd) :=
    List.get?_mem hzip
  obtain ⟨e, he⟩ := exceptMapM_error_of_mem (fun p => oneHotColumn p.1 p.2) _
    (cats, (Row.getOpt r c).getD Val.missing) hmem herr
  have htr : pl.encoder.transform ((Row.select r pl.nominal_variables).map Prod.snd) =
      Except.error e := by
    unfold OneHotEncoderModel.transform
    rw [he]
  refine ⟨e, ?_⟩
  simp only [apply_onehot, hcheck, htr]

/-- Witness for the amended C1 at the scenario instance: the pipeline fitted
on GENERAL and OBC rejects SC through `apply_onehot`. -/
theorem C1_witness :
    ∃ msg, apply_onehot plCaste [("Caste", Val.str "SC")] =
      Except.error (PipeErr.oneHotRuntime msg) :=
  C1_unseen_category_raises plCaste [("Caste", Val.str "SC")] 0 "Caste"
    ["GENERAL", "OBC"] (by decide) (by decide) (by decide)
    (by intro s hs; cases hs; decide)

theorem string_append_right_cancel (a b c : String) (h : a ++ c = b ++ c) : a = b := by
  cases a with
  | mk da =>
    cases b with
    | mk db =>
      cases c with
      | mk dc =>
        simp [String.ext_iff] at h ⊢
        exact h

theorem encode_ordinal_unseen (pl : InferencePipeline) (c s : String)
    (hun : lookupKey ((lookupKey pl.ordinal_mapping c).getD []) s = none) :
    ∀ (l : List String) (r : Row), c ∈ l → l.Nodup →
      Row.getOpt r c = some (Val.str s) →
      (∀ o ∈ l, ¬ o ++ "_encoded" = c) →
      Row.getOpt (l.foldl (encode_ordinal_step pl) r) (c ++ "_encoded") = some Val.missing := by
  intro l
  induction l with
  | nil => intro r hmem; cases hmem
  | cons a l ih =>
    intro r hmem hnd hval h1
    simp only [List.foldl]
    by_cases hac : a = c
    · subst hac
      have hstep : encode_ordinal_step pl r a =
          Row.setCol r (a ++ "_encoded") Val.missing := by
        unfold encode_ordinal_step
        rw [hval]
        simp [seriesMapVal, hun]
      rw [hstep]
      rw [encode_ordinal_fold_preserve pl l (Row.setCol r (a ++ "_encoded") Val.missing)
        (a ++ "_encoded") (by
          intro o ho he
          have hoa : o ≠ a := fun heq => (List.nodup_cons.mp hnd).1 (heq ▸ ho)
          exact hoa (string_append_right_cancel o a "_encoded" he))]
      exact getOpt_setCol_self r _ _
    · have hval2 : Row.getOpt (encode_ordinal_step pl r a) c = some (Val.str s) := by
        unfold encode_ordinal_step
        cases hv : Row.getOpt r a with
        | none => exact hval
        | some v =>
          rw [getOpt_setCol_ne r c (a ++ "_encoded") _
            (fun he => h1 a (List.mem_cons_self a l) he.symm)]
          exact hval
      have hmem2 : c ∈ l := by
        cases hmem with
        | head => exact absurd rfl hac
        | tail _ h2 => exact h2
      exact ih (encode_ordinal_step pl r a) hmem2 (List.nodup_cons.mp hnd).2 hval2
        (fun o ho => h1 o (List.mem_cons_of_mem a ho))

/-- An encoder fitted on no nominal columns (ordinal-only scenario). -/
def encNone : OneHotEncoderModel :=
  { feature_names_in_ := some [], categories_ := [] }

/-- The fixed four-level ordinal scale of the pipeline configuration. -/
def ordinal_scale : List (String × ℚ) :=
  [("EXCELLENT", 3), ("VG", 2), ("GOOD", 1), ("AVERAGE", 0)]

/-- Pipeline with one ordinal column on the fixed four-level scale. -/
def plOrd : InferencePipeline :=
  initInferencePipeline encNone pcaOne [("Class_X_Percentage", ordinal_scale)]
    [] ["Class_X_Percentage"] "Performance"

/-- Claim C2 is refuted: an ordinal value outside the fixed four-level set
does NOT raise; `transform` completes normally and the encoded column holds a
missing value (NaN), the per-row effect of `Series.map` on an unseen key. -/
theorem C2_counterexample :
    pipeline_transform plOrd [("Class_X_Percentage", Val.str "POOR")] false =
      Except.ok [("Class_X_Percentage_encoded", Val.missing)] := by
  rfl

/-- Claim C2 (amended): a value of an ordinal column outside its mapping is
silently encoded as a missing value (NaN) by `encode_ordinal` — no exception
is raised at the encoding step — and in particular it is not encoded as 0. -/
theorem C2_unseen_ordinal_missing (pl : InferencePipeline) (r : Row) (c s : String)
    (hmem : c ∈ pl.ordinal_variables) (hnd : pl.ordinal_variables.Nodup)
    (hval : Row.getOpt r c = some (Val.str s))
    (hun : lookupKey ((lookupKey pl.ordinal_mapping c).getD []) s = none)
    (h1 : ∀ o ∈ pl.ordinal_variables, ¬ o ++ "_encoded" = c) :
    Row.getOpt (encode_ordinal pl r) (c ++ "_encoded") = some Val.missing ∧
    Val.missing ≠ Val.num 0 :=
  ⟨encode_ordinal_unseen pl c s hun pl.ordinal_variables r hmem hnd hval h1, by simp⟩

/-- Witness for the amended C2: the unseen ordinal value POOR is encoded as a
missing value. -/
theorem C2_witness :
    Row.getOpt (encode_ordinal plOrd [("Class_X_Percentage", Val.str "POOR")])
      "Class_X_Percentage_encoded" = some Val.missing := by
  have h := (C2_unseen_ordinal_missing plOrd [("Class_X_Percentage", Val.str "POOR")]
    "Class_X_Percentage" "POOR" (by decide) (by decide) rfl (by decide) (by decide)).1
  simpa using h

theorem rint_bounds (q : ℚ) : q - 1 / 2 ≤ (rint q : ℚ) ∧ (rint q : ℚ) ≤ q + 1 / 2 := by
  have h0 : 0 ≤ Int.fract q := Int.fract_nonneg q
  have h1 : Int.fract q < 1 := Int.fract_lt_one q
  have hf : (⌊q⌋ : ℚ) = q - Int.fract q := by
    unfold Int.fract
    ring
  unfold rint
  by_cases hlt : Int.fract q < 1 / 2
  · rw [if_pos hlt]
    constructor
    · rw [hf]; linarith
    · rw [hf]; linarith
  · rw [if_neg hlt]
    by_cases hgt : 1 / 2 < Int.fract q
    · rw [if_pos hgt]
      push_cast
      constructor
      · rw [hf]; linarith
      · rw [hf]; linarith
    · rw [if_neg hgt]
      have heq : Int.fract q = 1 / 2 := le_antisymm (not_lt.mp hgt) (not_lt.mp hlt)
      by_cases hdvd : 2 ∣ ⌊q⌋
      · rw [if_pos hdvd]
        constructor
        · rw [hf]; linarith
        · rw [hf]; linarith
      · rw [if_neg hdvd]
        push_cast
        constructor
        · rw [hf]; linarith
        · rw [hf]; linarith

/-- Claim C8 is refuted: the evaluation step rounds but does NOT clip before
scoring: a raw test-set output of 5 is scored as class 5 (outside [0, 3]);
with the clipping the claim states, the class would be 3 and the squared error
would differ (0 instead of 4 against a true label of 3). -/
theorem C8_counterexample :
    evaluation_pred_class [(5 : ℚ)] = [5] ∧
    clip03 5 = 3 ∧
    mean_squared_error [3] (evaluation_pred_class [(5 : ℚ)]) = 4 ∧
    mean_squared_error [3] ((evaluation_pred_class [(5 : ℚ)]).map clip03) = 0 := by
  have hfl : ⌊(5 : ℚ)⌋ = 5 := by norm_num
  have hfr : Int.fract (5 : ℚ) = 0 := by
    unfold Int.fract
    rw [hfl]
    norm_num
  have hr : rint (5 : ℚ) = 5 := by
    unfold rint
    rw [hfr, hfl]
    norm_num
  refine ⟨?_, by rfl, ?_, ?_⟩
  · simp [evaluation_pred_class, hr]
  · simp [evaluation_pred_class, hr, mean_squared_error]
    norm_num
  · simp [evaluation_pred_class, hr, mean_squared_error, clip03]

/-- Claim C8 (amended): before the RMSE and kappa scores are computed the
predictions are rounded to the nearest integer but not clipped: the scored
class is exactly `rint` of the raw output, and a raw output above 3.5 is
scored as a class strictly above 3, outside the valid label range. -/
theorem C8_round_without_clip (y_pred : List ℚ) (q : ℚ) (i : Nat)
    (hq : y_pred.get? i = some q) :
    (evaluation_pred_class y_pred).get? i = some (rint q) ∧
    (7 / 2 < q → ¬ rint q ≤ 3) := by
  constructor
  · unfold evaluation_pred_class
    rw [List.get?_map, hq]
    rfl
  · intro hgt hle
    have hb := (rint_bounds q).1
    have h3 : (rint q : ℚ) ≤ 3 := by exact_mod_cast hle
    linarith

/-- Witness for the amended C8 at a concrete raw output. -/
theorem C8_witness :
    (evaluation_pred_class [(4 : ℚ)]).get? 0 = some (rint 4) ∧
    (7 / 2 < (4 : ℚ) → ¬ rint 4 ≤ 3) :=
  C8_round_without_clip [(4 : ℚ)] 4 0 rfl
